import Mathlib

/-!
Verification development for the game-changers-ml placement pipeline.

Shallow embedding of the core pipeline (feature extraction, composite
features, model training/selection, placement prediction with tie-breaking,
validation metrics) from:
  src/data/processors.py, src/features/engineering.py,
  src/models/trainer.py, src/models/predictor.py,
  src/validation/validator.py.

Python floats are modelled as exact rationals (ℚ); the properties verified
here are order/equality/bound facts that are exact in this model.
`datetime.now()` is modelled as an explicit day-index parameter `now : ℤ`
(day granularity: the code only uses `.days` of the timedelta).
-/

namespace GCML

/-- The `Player` dataclass (src/domain/entities.py): the `stats` dict is an
association list; `player.stats.get(k, 0)` is `statGet`. -/
structure Player where
  id : String
  name : String
  role : String
  stats : List (String × ℚ)
deriving DecidableEq, Repr

/-- Python's `player.stats.get(key, 0)`. -/
def Player.statGet (p : Player) (key : String) : ℚ :=
  (p.stats.lookup key).getD 0

/-- One entry of `team.recent_matches` (a Python dict with keys
`opponent`, `result`, `event`; `date` is never read by the core). -/
structure MatchRec where
  opponent : String
  result : String
  event : String
deriving DecidableEq, Repr

/-- The `Team` dataclass (src/domain/entities.py). `formed_date` is a day
index, `none` when unknown (falsy in the source); the unused `events`
field is omitted. -/
structure Team where
  id : String
  name : String
  region : String
  players : List Player
  formed_date : Option ℤ
  recent_matches : List MatchRec
deriving DecidableEq, Repr

/-- The `TrainingFeatures` dataclass (src/domain/entities.py); `target` is
not read by any claim path and is omitted. -/
structure TrainingFeatures where
  team_id : String
  roster_stability : ℚ
  avg_player_rating : ℚ
  avg_acs : ℚ
  avg_kdr : ℚ
  avg_kast : ℚ
  win_rate : ℚ
  recent_form : ℚ
  strength_of_schedule : ℚ
  tournament_results : ℚ
deriving DecidableEq, Repr

/-- Embeds `DataProcessor.calculate_roster_stability` (processors.py:13-27).
`datetime.now()` is the explicit parameter `now`; `days_together` is the
day difference. -/
def calculate_roster_stability (now : ℤ) (team : Team) : ℚ :=
  match team.formed_date with
  | none => 1/2
  | some d =>
    let days_together : ℤ := now - d
    let stability : ℚ := min ((days_together : ℚ) / 365) 1
    let roster_completeness : ℚ := (team.players.length : ℚ) / 5
    stability * roster_completeness

/-- Result record of `calculate_individual_performance`. -/
structure IndividualPerf where
  avg_rating : ℚ
  avg_acs : ℚ
  avg_kdr : ℚ
  avg_kast : ℚ
deriving DecidableEq, Repr

/-- Embeds `DataProcessor.calculate_individual_performance` (processors.py:29-52). -/
def calculate_individual_performance (team : Team) : IndividualPerf :=
  match team.players with
  | [] => { avg_rating := 0, avg_acs := 0, avg_kdr := 0, avg_kast := 0 }
  | _ :: _ =>
    let num_players : ℚ := (team.players.length : ℚ)
    { avg_rating := (team.players.map (·.statGet "rating")).sum / num_players
      avg_acs := (team.players.map (·.statGet "acs")).sum / num_players
      avg_kdr := (team.players.map (·.statGet "kdr")).sum / num_players
      avg_kast := (team.players.map (·.statGet "kast")).sum / num_players }

/-- Result record of `calculate_team_performance`. -/
structure TeamPerf where
  win_rate : ℚ
  recent_form : ℚ
  strength_of_schedule : ℚ
deriving DecidableEq, Repr

/-- The fixed list of recognized strong opponents (processors.py:78). -/
def strong_opponents : List String :=
  ["G2 Gozen", "Team Liquid Brazil", "Shopify Rebellion Gold"]

/-- The un-clamped strength-of-schedule value for a non-empty match list
(processors.py:79-83): `0.5 + strong_opponent_matches / total * 0.3`. -/
def strength_of_schedule_raw (recent : List MatchRec) : ℚ :=
  let total_matches : ℚ := (recent.length : ℚ)
  let strong_opponent_matches : ℚ :=
    ((recent.filter (fun m => m.opponent ∈ strong_opponents)).length : ℚ)
  1/2 + strong_opponent_matches / total_matches * (3/10)

/-- Embeds `DataProcessor.calculate_team_performance` (processors.py:54-89). -/
def calculate_team_performance (team : Team) : TeamPerf :=
  match team.recent_matches with
  | [] => { win_rate := 1/2, recent_form := 1/2, strength_of_schedule := 1/2 }
  | _ :: _ =>
    let recent := team.recent_matches
    let wins : ℚ := ((recent.filter (fun m => m.result = "win")).length : ℚ)
    let total_matches : ℚ := (recent.length : ℚ)
    let win_rate := wins / total_matches
    let weighted := (recent.take 6).enum.map
      (fun p => ((1 : ℚ) / ((p.1 : ℚ) + 1),
                 if p.2.result = "win" then (1 : ℚ) else 0))
    let form_weight : ℚ := (weighted.map (·.1)).sum
    let recent_form_num : ℚ := (weighted.map (fun p => p.1 * p.2)).sum
    let recent_form := if form_weight > 0 then recent_form_num / form_weight else win_rate
    { win_rate := win_rate
      recent_form := recent_form
      strength_of_schedule := min (strength_of_schedule_raw recent) 1 }

/-- Substring containment, modelling Python's `sub in s`. -/
def strContains (s sub : String) : Bool :=
  (List.range (s.length + 1)).any (fun i => sub.isPrefixOf (s.drop i))

/-- Embeds `DataProcessor.calculate_tournament_performance` (processors.py:91-104). -/
def calculate_tournament_performance (team : Team) : ℚ :=
  match team.recent_matches with
  | [] => 1/2
  | _ :: _ =>
    let gc_matches := team.recent_matches.filter
      (fun m => strContains m.event "Game Changers")
    match gc_matches with
    | [] => 1/2
    | _ :: _ =>
      let gc_wins : ℚ := ((gc_matches.filter (fun m => m.result = "win")).length : ℚ)
      gc_wins / (gc_matches.length : ℚ)

/-- One iteration of the loop body of `DataProcessor.extract_features`
(processors.py:111-129). -/
def extractOne (now : ℤ) (team : Team) : TrainingFeatures :=
  let individual_perf := calculate_individual_performance team
  let team_perf := calculate_team_performance team
  { team_id := team.id
    roster_stability := calculate_roster_stability now team
    avg_player_rating := individual_perf.avg_rating
    avg_acs := individual_perf.avg_acs
    avg_kdr := individual_perf.avg_kdr
    avg_kast := individual_perf.avg_kast
    win_rate := team_perf.win_rate
    recent_form := team_perf.recent_form
    strength_of_schedule := team_perf.strength_of_schedule
    tournament_results := calculate_tournament_performance team }

/-- Embeds `DataProcessor.extract_features` (processors.py:106-131). -/
def extract_features (now : ℤ) (teams : List Team) : List TrainingFeatures :=
  teams.map (extractOne now)

/-- One row after `FeatureEngineer.create_composite_features`
(engineering.py:47-73); the pandas operations are column-wise, so the
embedding is per row. -/
structure CompositeRow where
  base : TrainingFeatures
  stability_performance : ℚ
  form_consistency : ℚ
  individual_skill : ℚ
  tournament_impact : ℚ
  team_strength_index : ℚ
deriving DecidableEq, Repr

/-- Embeds `FeatureEngineer.create_composite_features` (engineering.py:47-73),
acting on one row of the feature frame. -/
def create_composite_features (f : TrainingFeatures) : CompositeRow :=
  let individual_skill :=
    (f.avg_player_rating * (4/10) + f.avg_acs * (2/10) +
     f.avg_kdr * (2/10) + f.avg_kast * (2/10)) / 200
  let tournament_impact := f.tournament_results * f.strength_of_schedule
  { base := f
    stability_performance := f.roster_stability * f.avg_player_rating
    form_consistency := f.win_rate * f.recent_form
    individual_skill := individual_skill
    tournament_impact := tournament_impact
    team_strength_index :=
      individual_skill * (3/10) + f.win_rate * (25/100) +
      f.recent_form * (2/10) + f.roster_stability * (15/100) +
      tournament_impact * (1/10) }

/-- Python 3 `round` on an exact value: round half to even (banker's
rounding), as used in `int(round(predictions[i]))` (predictor.py:40). -/
def pyRound (q : ℚ) : ℤ :=
  let fl := ⌊q⌋
  let frac := q - (fl : ℚ)
  if frac < 1/2 then fl
  else if frac > 1/2 then fl + 1
  else if 2 ∣ fl then fl else fl + 1

/-- Embeds `PlacementPredictor._calculate_confidence` (predictor.py:70-77). -/
def calculate_confidence (prediction : ℚ) : ℚ :=
  let middle : ℚ := 9/2
  let distance_from_middle := |prediction - middle|
  let confidence := distance_from_middle / (7/2)
  max (3/10) (min (9/10) confidence)

/-- The `features` sub-dict stored in each result (predictor.py:42-47). -/
structure FeatSubset where
  roster_stability : ℚ
  avg_player_rating : ℚ
  win_rate : ℚ
  recent_form : ℚ
deriving DecidableEq, Repr

/-- One result dict of `predict_placements` (predictor.py:37-48). -/
structure PredResult where
  team : String
  region : String
  predicted_placement : ℤ
  confidence_score : ℚ
  features : FeatSubset
deriving DecidableEq, Repr

/-- Building one result dict (predictor.py:36-48). -/
def mkResult (team : Team) (f : TrainingFeatures) (prediction : ℚ) : PredResult :=
  { team := team.name
    region := team.region
    predicted_placement := pyRound prediction
    confidence_score := calculate_confidence prediction
    features :=
      { roster_stability := f.roster_stability
        avg_player_rating := f.avg_player_rating
        win_rate := f.win_rate
        recent_form := f.recent_form } }

/-- Index-aligned triple zip, mirroring `for i, team in enumerate(teams)`
with `features[i]` and `predictions[i]` (predictor.py:36). -/
def zip3With (f : α → β → γ → δ) : List α → List β → List γ → List δ
  | a :: as, b :: bs, c :: cs => f a b c :: zip3With f as bs cs
  | _, _, _ => []

/-- The `while placement in used_placements and placement < 8` bump loop
(predictor.py:87-88).  The loop makes at most `(8 - p).toNat` iterations
(the loop guard requires `p < 8` and each iteration increments `p`), so
running the structural `bumpPlacementGo` with that much fuel computes the
loop exactly; `bumpPlacement_eq_loop` below is the loop's defining
equation. -/
def bumpPlacementGo (used : List ℤ) : ℕ → ℤ → ℤ
  | 0, p => p
  | fuel + 1, p => if p ∈ used ∧ p < 8 then bumpPlacementGo used fuel (p + 1) else p

def bumpPlacement (used : List ℤ) (p : ℤ) : ℤ :=
  bumpPlacementGo used ((8 - p).toNat + 1) p

/-- The first loop of `_adjust_placements` (predictor.py:82-92): greedy
de-duplication with clamping to [1, 8]. -/
def greedyAssign (used : List ℤ) : List PredResult → List PredResult
  | [] => []
  | r :: rest =>
    let placement := max 1 (min 8 (bumpPlacement used r.predicted_placement))
    { r with predicted_placement := placement } ::
      greedyAssign (placement :: used) rest

/-- The final loop of `_adjust_placements` (predictor.py:95-96):
`result['predicted_placement'] = i + 1` in the current order. -/
def relabelFrom (n : ℤ) : List PredResult → List PredResult
  | [] => []
  | r :: rest => { r with predicted_placement := n } :: relabelFrom (n + 1) rest

/-- Embeds `PlacementPredictor._adjust_placements` (predictor.py:79-96).  The
`sorted_placements` local computed on line 94 is never used and is not
modelled. -/
def adjust_placements (results : List PredResult) : List PredResult :=
  relabelFrom 1 (greedyAssign [] results)

/-- Embeds `PlacementPredictor._fallback_prediction` (predictor.py:56-68): the
fixed linear weighting, min-max normalization with the `1e-8` guard, and
the map to the placement range.  `numpy` `.min()`/`.max()` raise on an
empty frame, modelled as `none`. -/
def fallback_prediction (df : List TrainingFeatures) : Option (List ℚ) :=
  match df with
  | [] => none
  | d :: ds =>
    let scores := (d :: ds).map (fun f =>
      f.roster_stability * (15/100) + f.avg_player_rating * (35/100) +
      f.win_rate * (1/2) + f.recent_form * (3/10) +
      f.strength_of_schedule * (2/10))
    let mn := scores.foldl min (scores.headD 0)
    let mx := scores.foldl max (scores.headD 0)
    some (scores.map (fun s =>
      let normalized := (s - mn) / (mx - mn + 1/100000000)
      1 + (1 - normalized) * 7))

/-- The sort on line 50 of predictor.py:
`results.sort(key=lambda x: x['predicted_placement'])`.  Python's
`list.sort` is a stable sort; insertion sort with the non-strict
comparator is stable, so it computes the same list. -/
def sortResults (results : List PredResult) : List PredResult :=
  results.insertionSort (fun a b => a.predicted_placement ≤ b.predicted_placement)

/-- Embeds `PlacementPredictor.predict_placements` (predictor.py:20-54).  The
trained branch's `self.model_trainer.predict(X_processed)` is an external
fitted estimator; it is abstracted as `model` applied to the extracted
features (the scaling applied to build `X_processed` is part of that
abstraction).  The untrained branch (and the `NotFittedError` catch)
uses `fallback_prediction`. -/
def predict_placements (now : ℤ) (is_trained : Bool)
    (model : List TrainingFeatures → List ℚ) (teams : List Team) :
    Option (List PredResult) :=
  let features := extract_features now teams
  let predictions? :=
    if is_trained then some (model features) else fallback_prediction features
  predictions?.map (fun predictions =>
    adjust_placements (sortResults (zip3With mkResult teams features predictions)))

/-- The fixed candidate dict of `ModelTrainer.__init__` (trainer.py:20-24),
in insertion order. -/
def candidates : List String := ["random_forest", "gradient_boosting", "ridge"]

/-- Outcome of running `cross_val_score` + `model.fit` for one candidate
inside the `try` block (trainer.py:40-49): either the mean cross-validated
MAE (`-cv_scores.mean()`), or a raised exception.  The estimators are
external sklearn objects, abstracted as this oracle. -/
inductive CvOutcome where
  | ok (cv_mae_mean : ℚ)
  | raises
deriving DecidableEq, Repr

/-- The `for name, model in self.models.items()` loop inside the `try`
block (trainer.py:40-49): sequential, aborted by the first raised
exception, otherwise producing the `results` entries in order. -/
def trainLoop (cv : String → CvOutcome) : List String → Except Unit (List (String × ℚ))
  | [] => .ok []
  | n :: ns =>
    match cv n with
    | .raises => .error ()
    | .ok m => (trainLoop cv ns).map (fun rest => (n, m) :: rest)

/-- Python's `min(keys, key=f)` (trainer.py:51-52): the first key attaining
the minimal value (later keys replace the current best only when strictly
smaller). -/
def argminFirstGo (bestN : String) (bestM : ℚ) : List (String × ℚ) → String
  | [] => bestN
  | (n, m) :: rest =>
    if m < bestM then argminFirstGo n m rest else argminFirstGo bestN bestM rest

def argminFirst : List (String × ℚ) → Option String
  | [] => none
  | (n, m) :: rest => some (argminFirstGo n m rest)

/-- The trainer state touched by `train_models`: `best_model_name` and
`is_trained` (the fitted `best_model` object itself is external). -/
structure TrainerState where
  best_model_name : Option String
  is_trained : Bool
deriving DecidableEq, Repr

/-- Embeds `ModelTrainer.train_models` (trainer.py:29-61).  `nRows = len(X)`;
the cross-validation/fitting of each sklearn candidate is the oracle
`cv`.  Returns the new state and the report (`None` on the insufficient
data path and on a caught exception). -/
def train_models (st : TrainerState) (nRows : ℕ) (cv : String → CvOutcome) :
    TrainerState × Option (List (String × ℚ)) :=
  if nRows < 3 then
    ({ st with is_trained := false }, none)
  else
    match trainLoop cv candidates with
    | .error _ => ({ st with is_trained := false }, none)
    | .ok results =>
      ({ best_model_name := argminFirst results, is_trained := true }, some results)

/-- Embeds `ModelValidator._accuracy_within_range` (validator.py:61-65):
`np.mean(|y_true - y_pred| <= range_size)` over index-aligned arrays. -/
def accuracy_within_range (yTrue yPred : List ℤ) (range_size : ℤ) : ℚ :=
  let flags := (yTrue.zip yPred).map
    (fun tp => if |tp.1 - tp.2| ≤ range_size then (1 : ℚ) else 0)
  flags.sum / (flags.length : ℚ)

/-- Embeds `ModelValidator._top_n_accuracy` (validator.py:67-74): of the teams
actually placing in the top `n`, the fraction also predicted in the top
`n`; `0.0` when no team actually places in the top `n`. -/
def top_n_accuracy (yTrue yPred : List ℤ) (n : ℤ) : ℚ :=
  let pairs := yTrue.zip yPred
  let correct : ℚ := ((pairs.filter (fun tp => tp.2 ≤ n ∧ tp.1 ≤ n)).length : ℚ)
  let total_top_n : ℚ := ((pairs.filter (fun tp => tp.1 ≤ n)).length : ℚ)
  if total_top_n > 0 then correct / total_top_n else 0

/-- Embeds `ModelValidator._perfect_predictions` (validator.py:76-80). -/
def perfect_predictions (yTrue yPred : List ℤ) : ℚ :=
  let flags := (yTrue.zip yPred).map
    (fun tp => if tp.1 = tp.2 then (1 : ℚ) else 0)
  flags.sum / (flags.length : ℚ)

/-- The validation metrics computed by `validate_predictions`
(validator.py:44-55) that are exact in ℚ.  `root_mean_squared_error`
(an irrational square root) and the `_detailed_analysis` entries are
not needed by any claim and are omitted. -/
structure ValMetrics where
  num_teams_validated : ℕ
  mean_absolute_error : ℚ
  mean_squared_error : ℚ
  accuracy_within_1 : ℚ
  accuracy_within_2 : ℚ
  accuracy_within_3 : ℚ
  top_3_accuracy : ℚ
  top_5_accuracy : ℚ
  perfect_predictions : ℚ
deriving DecidableEq, Repr

/-- Embeds `ModelValidator.validate_predictions` (validator.py:14-59): filter to
teams present in the `actual_placements` dict (an association list),
return the error sentinel (`none`) when no team matches, else the
metrics. -/
def validate_predictions (predictions : List PredResult)
    (actual_placements : List (String × ℤ)) : Option ValMetrics :=
  let valid := predictions.filterMap (fun p =>
    (actual_placements.lookup p.team).map (fun a => (a, p.predicted_placement)))
  match valid with
  | [] => none
  | _ :: _ =>
    let yTrue := valid.map (·.1)
    let yPred := valid.map (·.2)
    let nQ : ℚ := (valid.length : ℚ)
    some
      { num_teams_validated := valid.length
        mean_absolute_error := (valid.map (fun tp => ((|tp.1 - tp.2| : ℤ) : ℚ))).sum / nQ
        mean_squared_error := (valid.map (fun tp => ((tp.1 - tp.2 : ℤ) : ℚ) ^ 2)).sum / nQ
        accuracy_within_1 := accuracy_within_range yTrue yPred 1
        accuracy_within_2 := accuracy_within_range yTrue yPred 2
        accuracy_within_3 := accuracy_within_range yTrue yPred 3
        top_3_accuracy := top_n_accuracy yTrue yPred 3
        top_5_accuracy := top_n_accuracy yTrue yPred 5
        perfect_predictions := perfect_predictions yTrue yPred }

/-- The ranking described by the spec sentence for C1: results ordered by
ascending `key` of the raw predicted score, ties broken by original input
position (index in the input list), then relabelled `1..N` in that order.
With `key = id` this is the claim as stated (ascending raw score); with
`key = pyRound` it is the amended claim (ascending rounded score). -/
def specRank {κ : Type} [LinearOrder κ] (key : ℚ → κ)
    (teams : List Team) (features : List TrainingFeatures)
    (predictions : List ℚ) : List PredResult :=
  let tagged := ((zip3With mkResult teams features predictions).zip predictions).enum
  let sorted := tagged.insertionSort (fun a b =>
    key a.2.2 < key b.2.2 ∨ (key a.2.2 = key b.2.2 ∧ a.1 ≤ b.1))
  relabelFrom 1 (sorted.map (fun a => a.2.1))

section SortLemmas

variable {α : Type*} {β : Type*}

theorem orderedInsert_congr (r₁ r₂ : α → α → Prop) [DecidableRel r₁] [DecidableRel r₂]
    (x : α) (l : List α) (h : ∀ b ∈ l, r₁ x b ↔ r₂ x b) :
    l.orderedInsert r₁ x = l.orderedInsert r₂ x := by
  induction l with
  | nil => rfl
  | cons b t ih =>
    simp only [List.orderedInsert]
    by_cases hb : r₂ x b
    · rw [if_pos ((h b (List.mem_cons_self b t)).mpr hb), if_pos hb]
    · rw [if_neg (fun h1 => hb ((h b (List.mem_cons_self b t)).mp h1)), if_neg hb,
        ih (fun c hc => h c (List.mem_cons_of_mem b hc))]

theorem insertionSort_congr (r₁ r₂ : α → α → Prop) [DecidableRel r₁] [DecidableRel r₂]
    (l : List α) (h : l.Pairwise (fun a b => r₁ a b ↔ r₂ a b)) :
    l.insertionSort r₁ = l.insertionSort r₂ := by
  induction l with
  | nil => rfl
  | cons x t ih =>
    rcases List.pairwise_cons.mp h with ⟨hx, ht⟩
    simp only [List.insertionSort]
    rw [ih ht]
    exact orderedInsert_congr r₁ r₂ x (t.insertionSort r₂)
      (fun b hb => hx b ((List.perm_insertionSort r₂ t).mem_iff.mp hb))

theorem orderedInsert_map (f : α → β) (r : β → β → Prop) [DecidableRel r]
    (x : α) (l : List α) :
    (l.orderedInsert (fun a b => r (f a) (f b)) x).map f =
      (l.map f).orderedInsert r (f x) := by
  induction l with
  | nil => rfl
  | cons b t ih =>
    simp only [List.orderedInsert, List.map_cons]
    by_cases hb : r (f x) (f b)
    · rw [if_pos hb, if_pos hb]; rfl
    · rw [if_neg hb, if_neg hb, List.map_cons, ih]

theorem insertionSort_map (f : α → β) (r : β → β → Prop) [DecidableRel r] (l : List α) :
    (l.insertionSort (fun a b => r (f a) (f b))).map f =
      (l.map f).insertionSort r := by
  induction l with
  | nil => rfl
  | cons x t ih =>
    simp only [List.insertionSort, List.map_cons]
    rw [← ih, orderedInsert_map]

theorem enumFrom_pairwise_fst_lt (l : List α) (n : ℕ) :
    (l.enumFrom n).Pairwise (fun a b => a.1 < b.1) := by
  induction l generalizing n with
  | nil => exact List.Pairwise.nil
  | cons x t ih =>
    refine List.pairwise_cons.mpr ⟨?_, ih (n + 1)⟩
    intro b hb
    have := List.le_fst_of_mem_enumFrom hb
    omega

theorem enum_pairwise_fst_lt (l : List α) :
    l.enum.Pairwise (fun a b => a.1 < b.1) :=
  enumFrom_pairwise_fst_lt l 0

end SortLemmas

section PipelineLemmas

/-- Every row built by the result-construction loop carries the rounded
raw score as its `predicted_placement`. -/
theorem mem_zip_zip3With_placement :
    ∀ (ts : List Team) (fs : List TrainingFeatures) (ps : List ℚ)
      (x : PredResult × ℚ), x ∈ (zip3With mkResult ts fs ps).zip ps →
      x.1.predicted_placement = pyRound x.2
  | t :: ts, f :: fs, p :: ps, x, hx => by
    rcases List.mem_cons.mp hx with h | h
    · subst h; rfl
    · exact mem_zip_zip3With_placement ts fs ps x h
  | [], _, _, _, hx => by cases hx
  | _ :: _, [], _, _, hx => by cases hx
  | _ :: _, _ :: _, [], _, hx => by cases hx

theorem zip3With_length (f : α → β → γ → δ) :
    ∀ (as : List α) (bs : List β) (cs : List γ),
      bs.length = as.length → cs.length = as.length →
      (zip3With f as bs cs).length = as.length
  | [], _, _, _, _ => by simp [zip3With]
  | a :: as, b :: bs, c :: cs, hb, hc => by
    simpa [zip3With] using zip3With_length f as bs cs (by simpa using hb) (by simpa using hc)

theorem extract_features_length (now : ℤ) (teams : List Team) :
    (extract_features now teams).length = teams.length :=
  List.length_map teams (extractOne now)

theorem fallback_prediction_length (df : List TrainingFeatures) (h : df ≠ []) :
    (fallback_prediction df).map List.length = some df.length := by
  match df, h with
  | d :: ds, _ => simp [fallback_prediction]

/-- The greedy de-duplication pass of `_adjust_placements` only rewrites
`predicted_placement`, which the final relabelling pass overwrites: the
composite is the plain relabelling. -/
theorem relabelFrom_greedyAssign (used : List ℤ) (l : List PredResult) :
    ∀ n : ℤ, relabelFrom n (greedyAssign used l) = relabelFrom n l := by
  induction l generalizing used with
  | nil => intro n; rfl
  | cons r t ih =>
    intro n
    simp only [greedyAssign, relabelFrom]
    exact congrArg _ (ih _ (n + 1))

theorem relabelFrom_map_placement (l : List PredResult) :
    ∀ n : ℤ, (relabelFrom n l).map (·.predicted_placement) =
      (List.range l.length).map (fun i : ℕ => n + (i : ℤ)) := by
  induction l with
  | nil => intro n; rfl
  | cons r t ih =>
    intro n
    have h1 : (List.range t.length).map ((fun i : ℕ => n + (i : ℤ)) ∘ Nat.succ)
        = (List.range t.length).map (fun i : ℕ => (n + 1) + (i : ℤ)) :=
      List.map_congr_left (fun i _ => by simp only [Function.comp_apply]; push_cast; ring)
    simp only [relabelFrom, List.map_cons, List.length_cons, List.range_succ_eq_map,
      List.map_map, ih (n + 1), h1, Nat.cast_zero, add_zero]

theorem relabelFrom_length (l : List PredResult) :
    ∀ n : ℤ, (relabelFrom n l).length = l.length := by
  induction l with
  | nil => intro n; rfl
  | cons r t ih => intro n; simpa [relabelFrom] using ih (n + 1)

/-- Defining equation of the `while` loop modelled by `bumpPlacement`:
the fuel used in the embedding is exactly sufficient. -/
theorem bumpPlacement_eq_loop (used : List ℤ) (p : ℤ) :
    bumpPlacement used p =
      if p ∈ used ∧ p < 8 then bumpPlacement used (p + 1) else p := by
  by_cases h : p ∈ used ∧ p < 8
  · rw [if_pos h]
    show bumpPlacementGo used ((8 - p).toNat + 1) p =
      bumpPlacementGo used ((8 - (p + 1)).toNat + 1) (p + 1)
    have h8 : (8 - p).toNat + 1 = ((8 - (p + 1)).toNat + 1) + 1 := by omega
    rw [h8]
    simp only [bumpPlacementGo, if_pos h]
  · rw [if_neg h]
    show bumpPlacementGo used ((8 - p).toNat + 1) p = p
    simp only [bumpPlacementGo, if_neg h]

theorem snd_mem_of_mem_enumFrom {x : ℕ × α} {l : List α} {n : ℕ}
    (h : x ∈ l.enumFrom n) : x.2 ∈ l := by
  have := (List.mem_enumFrom h).2.2
  rw [this]
  exact List.getElem_mem _

/-- The function `_adjust_placements` always relabels the list it is given to the
dense sequence `1..N` in the order it is given. -/
theorem adjust_placements_map_placement (l : List PredResult) :
    (adjust_placements l).map (·.predicted_placement) =
      (List.range l.length).map (fun i : ℕ => 1 + (i : ℤ)) := by
  rw [adjust_placements, relabelFrom_greedyAssign, relabelFrom_map_placement]

/-- The code's stable sort of the result dicts by rounded score computes
the lexicographic (rounded score, original position) ordering of the
tagged rows. -/
theorem sortResults_eq_lex (teams : List Team) (features : List TrainingFeatures)
    (predictions : List ℚ)
    (hlen : (zip3With mkResult teams features predictions).length ≤ predictions.length) :
    sortResults (zip3With mkResult teams features predictions) =
      ((((zip3With mkResult teams features predictions).zip predictions).enum).insertionSort
        (fun a b => pyRound a.2.2 < pyRound b.2.2 ∨
          (pyRound a.2.2 = pyRound b.2.2 ∧ a.1 ≤ b.1))).map (fun a => a.2.1) := by
  set rows := zip3With mkResult teams features predictions with hrows
  set tagged := (rows.zip predictions).enum with htagged
  have hA : tagged.map (fun a => a.2.1) = rows := by
    have h1 : tagged.map (fun a => a.2.1) = (tagged.map Prod.snd).map Prod.fst := by
      rw [List.map_map]; rfl
    rw [h1, htagged, List.enum_map_snd, List.map_fst_zip _ _ hlen]
  have hB : ∀ x ∈ tagged, x.2.1.predicted_placement = pyRound x.2.2 := by
    intro x hx
    exact mem_zip_zip3With_placement teams features predictions x.2
      (snd_mem_of_mem_enumFrom hx)
  have hC : tagged.Pairwise (fun a b =>
      (pyRound a.2.2 < pyRound b.2.2 ∨ (pyRound a.2.2 = pyRound b.2.2 ∧ a.1 ≤ b.1)) ↔
      a.2.1.predicted_placement ≤ b.2.1.predicted_placement) := by
    refine (enum_pairwise_fst_lt (rows.zip predictions)).imp_of_mem ?_
    intro a b ha hb hab
    rw [hB a ha, hB b hb]
    omega
  calc sortResults rows
      = (tagged.map (fun a => a.2.1)).insertionSort
          (fun a b => a.predicted_placement ≤ b.predicted_placement) := by
        rw [hA]; rfl
    _ = (tagged.insertionSort (fun a b =>
          a.2.1.predicted_placement ≤ b.2.1.predicted_placement)).map (fun a => a.2.1) := by
        rw [← insertionSort_map (fun a : ℕ × (PredResult × ℚ) => a.2.1)
          (fun a b => a.predicted_placement ≤ b.predicted_placement) tagged]
    _ = (tagged.insertionSort (fun a b => pyRound a.2.2 < pyRound b.2.2 ∨
          (pyRound a.2.2 = pyRound b.2.2 ∧ a.1 ≤ b.1))).map (fun a => a.2.1) := by
        rw [insertionSort_congr _ _ tagged hC]

theorem fallback_prediction_cons (d : TrainingFeatures) (ds : List TrainingFeatures) :
    ∃ ps, fallback_prediction (d :: ds) = some ps ∧ ps.length = (d :: ds).length := by
  refine ⟨_, rfl, ?_⟩
  simp [fallback_prediction]

/-- Composite step: the sorted, greedily de-duplicated, relabelled output
equals the lexicographic (rounded score, original position) ranking. -/
theorem adjust_sort_eq_specRank (teams : List Team) (features : List TrainingFeatures)
    (predictions : List ℚ) (hf : features.length = teams.length)
    (hp : predictions.length = teams.length) :
    adjust_placements (sortResults (zip3With mkResult teams features predictions)) =
      specRank pyRound teams features predictions := by
  have hz := zip3With_length mkResult teams features predictions hf hp
  have hlen : (zip3With mkResult teams features predictions).length ≤ predictions.length := by
    omega
  rw [adjust_placements, relabelFrom_greedyAssign,
    sortResults_eq_lex teams features predictions hlen]
  rfl

theorem sortResults_length (l : List PredResult) : (sortResults l).length = l.length :=
  List.length_insertionSort _ l

end PipelineLemmas

section ConcreteInputs

/-- A list of `n` recent matches won against an unrecognized opponent. -/
def winsRec (n : ℕ) : List MatchRec :=
  List.replicate n { opponent := "Other", result := "win", event := "" }

/-- A list of `n` recent matches lost against an unrecognized opponent. -/
def lossesRec (n : ℕ) : List MatchRec :=
  List.replicate n { opponent := "Other", result := "loss", event := "" }

/-- Fallback score `0.925`: raw fallback placement `≈ 1.4375`. -/
def cexTeamB : Team :=
  { id := "B", name := "B", region := "NA", players := [], formed_date := none,
    recent_matches := winsRec 9 ++ lossesRec 1 }

/-- Fallback score `0.975` (the maximum): raw fallback placement
`≈ 1.0000001`. -/
def cexTeamA : Team :=
  { id := "A", name := "A", region := "NA", players := [], formed_date := none,
    recent_matches := winsRec 6 }

/-- Fallback score `0.175` (the minimum): raw fallback placement `8`. -/
def cexTeamC : Team :=
  { id := "C", name := "C", region := "NA", players := [], formed_date := none,
    recent_matches := lossesRec 4 }

/-- Three teams whose raw fallback placements are `≈1.4375`, `≈1.0000001`
and `8`: the first two differ as raw scores but both round to `1`. -/
def cexTeams : List Team := [cexTeamB, cexTeamA, cexTeamC]

end ConcreteInputs

/-- C1 (counterexample): the claim as stated — final placements assigned
in ascending order of the *raw* predicted score, ties broken by original
list position — is false at a concrete three-team input.  Team B's raw
fallback placement (≈1.4375) is larger than team A's (≈1.0000001), so the
claimed ordering puts A first; but both round to 1, and the code's stable
sort on the rounded value keeps the input order B, A. -/
theorem predict_placements_raw_score_rank_counterexample :
    predict_placements 0 false (fun _ => []) cexTeams ≠
      (fallback_prediction (extract_features 0 cexTeams)).map
        (specRank (fun q : ℚ => q) cexTeams (extract_features 0 cexTeams)) := by
  with_unfolding_all decide

/-- C1 (amended): for every list of teams passed to `predict_placements`
(trained or fallback branch), the final predicted placements are exactly
the integers 1..N assigned in ascending order of the *rounded* raw
predicted score `int(round(score))`, with ties broken by the position of
the team in the original input list (stable sort). -/
theorem predict_placements_rank_by_rounded_score (now : ℤ) (is_trained : Bool)
    (model : List TrainingFeatures → List ℚ) (teams : List Team)
    (hm : is_trained = true →
      (model (extract_features now teams)).length = teams.length) :
    predict_placements now is_trained model teams =
      (if is_trained then some (model (extract_features now teams))
       else fallback_prediction (extract_features now teams)).map
        (specRank pyRound teams (extract_features now teams)) := by
  cases is_trained with
  | true =>
    show some (adjust_placements (sortResults (zip3With mkResult teams
        (extract_features now teams) (model (extract_features now teams))))) =
      some (specRank pyRound teams (extract_features now teams)
        (model (extract_features now teams)))
    exact congrArg some (adjust_sort_eq_specRank _ _ _
      (extract_features_length now teams) (hm rfl))
  | false =>
    show (fallback_prediction (extract_features now teams)).map
        (fun predictions => adjust_placements (sortResults
          (zip3With mkResult teams (extract_features now teams) predictions))) =
      (fallback_prediction (extract_features now teams)).map
        (specRank pyRound teams (extract_features now teams))
    cases teams with
    | nil => rfl
    | cons t ts =>
      obtain ⟨ps, hps, hlen⟩ :=
        fallback_prediction_cons (extractOne now t) (extract_features now ts)
      have hfe : extract_features now (t :: ts) =
          extractOne now t :: extract_features now ts := rfl
      rw [hfe, hps, Option.map_some', Option.map_some']
      refine congrArg some (adjust_sort_eq_specRank _ _ _ ?_ ?_)
      · rw [← hfe]; exact extract_features_length now (t :: ts)
      · rw [hlen, ← hfe]; exact extract_features_length now (t :: ts)

/-- Witness for C1 (amended) at the concrete three-team input, untrained. -/
theorem predict_placements_rank_by_rounded_score_witness :
    ((false : Bool) = true →
      (((fun _ : List TrainingFeatures => ([] : List ℚ))
        (extract_features 0 cexTeams)).length = cexTeams.length)) ∧
    predict_placements 0 false (fun _ => []) cexTeams =
      (fallback_prediction (extract_features 0 cexTeams)).map
        (specRank pyRound cexTeams (extract_features 0 cexTeams)) :=
  ⟨by decide,
   predict_placements_rank_by_rounded_score 0 false (fun _ => []) cexTeams (by decide)⟩

/-- C2: for every non-empty batch of N teams (trained branch with a
length-preserving model, or the untrained branch where the fallback
heuristic supplies the raw scores), `predict_placements` returns N
results whose `predicted_placement` values are exactly `1, …, N` — no
duplicates and no gaps. -/
theorem predict_placements_dense_ranking (now : ℤ) (is_trained : Bool)
    (model : List TrainingFeatures → List ℚ) (teams : List Team)
    (hne : teams ≠ [])
    (hm : is_trained = true →
      (model (extract_features now teams)).length = teams.length) :
    (predict_placements now is_trained model teams).map
        (fun rs => rs.map (·.predicted_placement)) =
      some ((List.range teams.length).map (fun i : ℕ => 1 + (i : ℤ))) := by
  cases teams with
  | nil => exact absurd rfl hne
  | cons t ts =>
    cases is_trained with
    | true =>
      show some ((adjust_placements (sortResults (zip3With mkResult (t :: ts)
          (extract_features now (t :: ts))
          (model (extract_features now (t :: ts)))))).map (·.predicted_placement)) = _
      rw [adjust_placements_map_placement]
      refine congrArg some ?_
      rw [sortResults_length, zip3With_length mkResult _ _ _
        (extract_features_length now (t :: ts)) (hm rfl)]
    | false =>
      obtain ⟨ps, hps, hlen⟩ :=
        fallback_prediction_cons (extractOne now t) (extract_features now ts)
      have hfe : extract_features now (t :: ts) =
          extractOne now t :: extract_features now ts := rfl
      show ((fallback_prediction (extract_features now (t :: ts))).map
          (fun predictions => adjust_placements (sortResults (zip3With mkResult (t :: ts)
            (extract_features now (t :: ts)) predictions)))).map
          (fun rs => rs.map (·.predicted_placement)) = _
      rw [hfe, hps]
      show some ((adjust_placements (sortResults (zip3With mkResult (t :: ts)
          (extractOne now t :: extract_features now ts) ps))).map
          (·.predicted_placement)) = _
      rw [adjust_placements_map_placement]
      refine congrArg some ?_
      rw [sortResults_length, zip3With_length mkResult _ _ _
        ((congrArg List.length hfe.symm).trans (extract_features_length now (t :: ts)))
        (hlen.trans ((congrArg List.length hfe.symm).trans
          (extract_features_length now (t :: ts))))]

/-- Witness for C2 at the concrete three-team input, untrained: the
output placements are exactly 1, 2, 3. -/
theorem predict_placements_dense_ranking_witness :
    cexTeams ≠ [] ∧
    ((false : Bool) = true →
      (((fun _ : List TrainingFeatures => ([] : List ℚ))
        (extract_features 0 cexTeams)).length = cexTeams.length)) ∧
    (predict_placements 0 false (fun _ => []) cexTeams).map
        (fun rs => rs.map (·.predicted_placement)) =
      some ((List.range cexTeams.length).map (fun i : ℕ => 1 + (i : ℤ))) :=
  ⟨by decide, by decide,
   predict_placements_dense_ranking 0 false (fun _ => []) cexTeams (by decide) (by decide)⟩

/-- A player with an empty stats dict. -/
def stabPlayer (s : String) : Player :=
  { id := s, name := s, role := "duelist", stats := [] }

/-- A five-player roster with a known formation date: its
`roster_stability` depends on the current date observed by the call. -/
def stabTeam : Team :=
  { id := "S", name := "S", region := "NA",
    players := [stabPlayer "p1", stabPlayer "p2", stabPlayer "p3",
                stabPlayer "p4", stabPlayer "p5"],
    formed_date := some 0, recent_matches := [] }

/-- C3 (counterexample): `extract_features` reads `datetime.now()` inside
`calculate_roster_stability`, so two calls on the same `Team` snapshot
that observe different day counts return different `TrainingFeatures`:
at 100 vs 200 days after formation, `roster_stability` is 100/365 vs
200/365. -/
theorem extract_features_clock_dependence_counterexample :
    extract_features 100 [stabTeam] ≠ extract_features 200 [stabTeam] := by
  with_unfolding_all decide

/-- C3 (amended): the eight fields other than `roster_stability` are
equal across any two calls on the same snapshot; all nine (the full
records) are equal whenever the two calls observe the same current date,
or the formation date is unknown. -/
theorem extract_features_deterministic_amended (now₁ now₂ : ℤ) (team : Team) :
    ((extractOne now₁ team).team_id = (extractOne now₂ team).team_id ∧
     (extractOne now₁ team).avg_player_rating = (extractOne now₂ team).avg_player_rating ∧
     (extractOne now₁ team).avg_acs = (extractOne now₂ team).avg_acs ∧
     (extractOne now₁ team).avg_kdr = (extractOne now₂ team).avg_kdr ∧
     (extractOne now₁ team).avg_kast = (extractOne now₂ team).avg_kast ∧
     (extractOne now₁ team).win_rate = (extractOne now₂ team).win_rate ∧
     (extractOne now₁ team).recent_form = (extractOne now₂ team).recent_form ∧
     (extractOne now₁ team).strength_of_schedule =
       (extractOne now₂ team).strength_of_schedule ∧
     (extractOne now₁ team).tournament_results =
       (extractOne now₂ team).tournament_results) ∧
    ((now₁ = now₂ ∨ team.formed_date = none) →
      extractOne now₁ team = extractOne now₂ team) := by
  refine ⟨⟨rfl, rfl, rfl, rfl, rfl, rfl, rfl, rfl, rfl⟩, ?_⟩
  rintro (h | h)
  · rw [h]
  · simp [extractOne, calculate_roster_stability, h]

/-- Witness for C3 (amended): identical day counts give identical
features on the concrete clock-sensitive team. -/
theorem extract_features_deterministic_amended_witness :
    ((100 : ℤ) = 100 ∨ stabTeam.formed_date = none) ∧
    extractOne 100 stabTeam = extractOne 100 stabTeam :=
  ⟨Or.inl rfl,
   (extract_features_deterministic_amended 100 100 stabTeam).2 (Or.inl rfl)⟩

/-- A team with no players and no recent matches. -/
def emptyTeam : Team :=
  { id := "E", name := "E", region := "NA", players := [],
    formed_date := none, recent_matches := [] }

/-- C5: a team with an empty players list yields the four individual
averages `0.0`; a team with an empty recent-matches list yields
`win_rate = recent_form = tournament_results = 0.5`.  (All the feature
functions are total: absent data resolves to these defaults, never an
error.) -/
theorem extract_features_neutral_defaults (now : ℤ) (team : Team) :
    (team.players = [] →
      (extractOne now team).avg_player_rating = 0 ∧
      (extractOne now team).avg_acs = 0 ∧
      (extractOne now team).avg_kdr = 0 ∧
      (extractOne now team).avg_kast = 0) ∧
    (team.recent_matches = [] →
      (extractOne now team).win_rate = 1/2 ∧
      (extractOne now team).recent_form = 1/2 ∧
      (extractOne now team).tournament_results = 1/2) := by
  constructor
  · intro h
    refine ⟨?_, ?_, ?_, ?_⟩ <;>
      simp [extractOne, calculate_individual_performance, h]
  · intro h
    refine ⟨?_, ?_, ?_⟩ <;>
      simp [extractOne, calculate_team_performance, calculate_tournament_performance, h]

/-- Witness for C5 at a concrete team with no players and no matches. -/
theorem extract_features_neutral_defaults_witness :
    (extractOne 0 emptyTeam).avg_player_rating = 0 ∧
    (extractOne 0 emptyTeam).avg_acs = 0 ∧
    (extractOne 0 emptyTeam).avg_kdr = 0 ∧
    (extractOne 0 emptyTeam).avg_kast = 0 ∧
    (extractOne 0 emptyTeam).win_rate = 1/2 ∧
    (extractOne 0 emptyTeam).recent_form = 1/2 ∧
    (extractOne 0 emptyTeam).tournament_results = 1/2 := by
  obtain ⟨h1, h2⟩ := extract_features_neutral_defaults 0 emptyTeam
  obtain ⟨a, b, c, d⟩ := h1 rfl
  obtain ⟨e, f, g⟩ := h2 rfl
  exact ⟨a, b, c, d, e, f, g⟩

/-- C6: when each of the nine primitive feature values lies in [0, 1],
`team_strength_index` lies in [0, 1]. -/
theorem team_strength_index_bounded (f : TrainingFeatures)
    (h1 : 0 ≤ f.roster_stability) (h2 : f.roster_stability ≤ 1)
    (h3 : 0 ≤ f.avg_player_rating) (h4 : f.avg_player_rating ≤ 1)
    (h5 : 0 ≤ f.avg_acs) (h6 : f.avg_acs ≤ 1)
    (h7 : 0 ≤ f.avg_kdr) (h8 : f.avg_kdr ≤ 1)
    (h9 : 0 ≤ f.avg_kast) (h10 : f.avg_kast ≤ 1)
    (h11 : 0 ≤ f.win_rate) (h12 : f.win_rate ≤ 1)
    (h13 : 0 ≤ f.recent_form) (h14 : f.recent_form ≤ 1)
    (h15 : 0 ≤ f.strength_of_schedule) (h16 : f.strength_of_schedule ≤ 1)
    (h17 : 0 ≤ f.tournament_results) (h18 : f.tournament_results ≤ 1) :
    0 ≤ (create_composite_features f).team_strength_index ∧
      (create_composite_features f).team_strength_index ≤ 1 := by
  have hti0 : 0 ≤ f.tournament_results * f.strength_of_schedule :=
    mul_nonneg h17 h15
  have hti1 : f.tournament_results * f.strength_of_schedule ≤ 1 :=
    mul_le_one₀ h18 h15 h16
  simp only [create_composite_features]
  constructor <;> nlinarith

/-- All nine primitive features at the midpoint value 1/2. -/
def halfFeatures : TrainingFeatures :=
  { team_id := "H", roster_stability := 1/2, avg_player_rating := 1/2,
    avg_acs := 1/2, avg_kdr := 1/2, avg_kast := 1/2, win_rate := 1/2,
    recent_form := 1/2, strength_of_schedule := 1/2, tournament_results := 1/2 }

/-- Witness for C6 at the all-1/2 feature row. -/
theorem team_strength_index_bounded_witness :
    0 ≤ (create_composite_features halfFeatures).team_strength_index ∧
      (create_composite_features halfFeatures).team_strength_index ≤ 1 :=
  team_strength_index_bounded halfFeatures
    (by norm_num [halfFeatures]) (by norm_num [halfFeatures])
    (by norm_num [halfFeatures]) (by norm_num [halfFeatures])
    (by norm_num [halfFeatures]) (by norm_num [halfFeatures])
    (by norm_num [halfFeatures]) (by norm_num [halfFeatures])
    (by norm_num [halfFeatures]) (by norm_num [halfFeatures])
    (by norm_num [halfFeatures]) (by norm_num [halfFeatures])
    (by norm_num [halfFeatures]) (by norm_num [halfFeatures])
    (by norm_num [halfFeatures]) (by norm_num [halfFeatures])
    (by norm_num [halfFeatures]) (by norm_num [halfFeatures])

section TrainerLemmas

/-- The fold `argminFirstGo` returns a key of the running list (or the seed) whose
value is minimal among the seed value and all listed values. -/
theorem argminFirstGo_spec (l : List (String × ℚ)) :
    ∀ (bN : String) (bM : ℚ), ∃ bM' : ℚ,
      ((argminFirstGo bN bM l, bM') = (bN, bM) ∨ (argminFirstGo bN bM l, bM') ∈ l) ∧
      bM' ≤ bM ∧ ∀ p ∈ l, bM' ≤ p.2 := by
  induction l with
  | nil =>
    intro bN bM
    exact ⟨bM, Or.inl rfl, le_refl bM, fun p hp => absurd hp (List.not_mem_nil p)⟩
  | cons q rest ih =>
    intro bN bM
    obtain ⟨n, m⟩ := q
    by_cases hlt : m < bM
    · obtain ⟨bM', hin, hle, hall⟩ := ih n m
      refine ⟨bM', ?_, le_of_lt (lt_of_le_of_lt hle hlt), ?_⟩
      · rcases hin with hin | hin
        · rw [show argminFirstGo bN bM ((n, m) :: rest) = argminFirstGo n m rest
            from by simp [argminFirstGo, hlt]]
          exact Or.inr (hin ▸ List.mem_cons_self (n, m) rest)
        · rw [show argminFirstGo bN bM ((n, m) :: rest) = argminFirstGo n m rest
            from by simp [argminFirstGo, hlt]]
          exact Or.inr (List.mem_cons_of_mem (n, m) hin)
      · intro p hp
        rcases List.mem_cons.mp hp with rfl | hp
        · exact hle
        · exact hall p hp
    · obtain ⟨bM', hin, hle, hall⟩ := ih bN bM
      refine ⟨bM', ?_, hle, ?_⟩
      · rw [show argminFirstGo bN bM ((n, m) :: rest) = argminFirstGo bN bM rest
          from by simp [argminFirstGo, hlt]]
        rcases hin with hin | hin
        · exact Or.inl hin
        · exact Or.inr (List.mem_cons_of_mem (n, m) hin)
      · intro p hp
        rcases List.mem_cons.mp hp with rfl | hp
        · exact le_trans hle (le_of_not_lt hlt)
        · exact hall p hp

/-- Applying `argminFirst` over a list of the shape `names.map (n ↦ (n, maes n))`
produces a name of the list attaining the minimal `maes` value. -/
theorem argminFirst_map_spec (maes : String → ℚ) (n₀ : String) (names : List String) :
    ∃ best, argminFirst ((n₀ :: names).map (fun n => (n, maes n))) = some best ∧
      best ∈ n₀ :: names ∧ ∀ n ∈ n₀ :: names, maes best ≤ maes n := by
  obtain ⟨bM', hin, hle, hall⟩ :=
    argminFirstGo_spec (names.map (fun n => (n, maes n))) n₀ (maes n₀)
  set go := argminFirstGo n₀ (maes n₀) (names.map (fun n => (n, maes n))) with hgo
  refine ⟨go, rfl, ?_, ?_⟩
  · rcases hin with hin | hin
    · have h1 : go = n₀ := congrArg Prod.fst hin
      rw [h1]
      exact List.mem_cons_self n₀ names
    · obtain ⟨n, hn, hpair⟩ := List.mem_map.mp hin
      have h1 : n = go := congrArg Prod.fst hpair
      rw [← h1]
      exact List.mem_cons_of_mem n₀ hn
  · have hbM' : bM' = maes go := by
      rcases hin with hin | hin
      · have h1 : go = n₀ := congrArg Prod.fst hin
        have h2 : bM' = maes n₀ := congrArg Prod.snd hin
        rw [h2, h1]
      · obtain ⟨n, hn, hpair⟩ := List.mem_map.mp hin
        have h1 : n = go := congrArg Prod.fst hpair
        have h2 : maes n = bM' := congrArg Prod.snd hpair
        rw [← h2, h1]
    intro n hn
    rcases List.mem_cons.mp hn with rfl | hn
    · exact hbM' ▸ hle
    · exact hbM' ▸ hall (n, maes n) (List.mem_map.mpr ⟨n, hn, rfl⟩)

/-- A raised exception anywhere in the candidate loop aborts it. -/
theorem trainLoop_error_of_raises (cv : String → CvOutcome) :
    ∀ ns : List String, (∃ n ∈ ns, cv n = CvOutcome.raises) →
      trainLoop cv ns = Except.error () := by
  intro ns
  induction ns with
  | nil => rintro ⟨n, hn, -⟩; exact absurd hn (List.not_mem_nil n)
  | cons n₀ rest ih =>
    rintro ⟨n, hn, hr⟩
    rcases List.mem_cons.mp hn with rfl | hn
    · simp [trainLoop, hr]
    · cases hcv : cv n₀ with
      | raises => simp [trainLoop, hcv]
      | ok m => simp [trainLoop, hcv, ih ⟨n, hn, hr⟩, Except.map]

/-- When every candidate's cross-validation succeeds, the loop returns the
results in candidate order. -/
theorem trainLoop_ok (cv : String → CvOutcome) (maes : String → ℚ)
    (hcv : ∀ n, cv n = CvOutcome.ok (maes n)) :
    trainLoop cv candidates =
      Except.ok (candidates.map (fun n => (n, maes n))) := by
  simp [trainLoop, candidates, hcv, Except.map]

end TrainerLemmas

/-- C4: `train_models` with fewer than 3 rows returns the "not trained"
sentinel (no report) and leaves `is_trained = false` (without raising:
the function is total); with at least 3 rows and successful
cross-validation of every candidate it sets `is_trained = true`, returns
the per-candidate report, and selects as best — among exactly three
model families — a candidate with the lowest mean cross-validated MAE. -/
theorem train_models_gating_and_selection (st : TrainerState) (nRows : ℕ)
    (cv : String → CvOutcome) (maes : String → ℚ) :
    (nRows < 3 → train_models st nRows cv = ({ st with is_trained := false }, none)) ∧
    (3 ≤ nRows → (∀ n, cv n = CvOutcome.ok (maes n)) →
      candidates.length = 3 ∧
      (train_models st nRows cv).1.is_trained = true ∧
      (train_models st nRows cv).2 = some (candidates.map (fun n => (n, maes n))) ∧
      ∃ best, (train_models st nRows cv).1.best_model_name = some best ∧
        best ∈ candidates ∧ ∀ n ∈ candidates, maes best ≤ maes n) := by
  constructor
  · intro h
    unfold train_models
    rw [if_pos h]
  · intro h3 hcv
    have hloop := trainLoop_ok cv maes hcv
    have hnot : ¬ nRows < 3 := by omega
    obtain ⟨best, hbest, hmem, hmin⟩ :=
      argminFirst_map_spec maes "random_forest" ["gradient_boosting", "ridge"]
    have hres : train_models st nRows cv =
        ({ best_model_name := argminFirst (candidates.map (fun n => (n, maes n))),
           is_trained := true },
         some (candidates.map (fun n => (n, maes n)))) := by
      unfold train_models
      rw [if_neg hnot, hloop]
    refine ⟨rfl, ?_, ?_, best, ?_, hmem, hmin⟩
    · rw [hres]
    · rw [hres]
    · rw [hres]
      exact hbest

/-- The oracle for the C4 witness: MAEs 2, 1, 3 in candidate order. -/
def maesW : String → ℚ :=
  fun n => if n = "gradient_boosting" then 1 else if n = "random_forest" then 2 else 3

def cvW : String → CvOutcome := fun n => CvOutcome.ok (maesW n)

/-- Witness for C4: 2 rows leaves the fresh trainer untrained with no
report; 20 rows trains it and selects the candidate with MAE 1. -/
theorem train_models_gating_and_selection_witness :
    train_models ⟨none, false⟩ 2 cvW = (⟨none, false⟩, none) ∧
    (train_models ⟨none, false⟩ 20 cvW).1.is_trained = true ∧
    (train_models ⟨none, false⟩ 20 cvW).1.best_model_name = some "gradient_boosting" := by
  obtain ⟨-, hbig⟩ := train_models_gating_and_selection ⟨none, false⟩ 20 cvW maesW
  obtain ⟨hs2, -⟩ := train_models_gating_and_selection ⟨none, false⟩ 2 cvW maesW
  obtain ⟨-, htr, -, best, hbest, hmem, hmin⟩ := hbig (by omega) (fun n => rfl)
  refine ⟨hs2 (by omega), htr, ?_⟩
  rw [hbest]
  have hb : best = "gradient_boosting" := by
    have h1 := hmin "gradient_boosting" (by simp [candidates])
    rcases (by simpa [candidates] using hmem : best = "random_forest" ∨
        best = "gradient_boosting" ∨ best = "ridge") with rfl | rfl | rfl
    · exact absurd h1 (by with_unfolding_all decide)
    · rfl
    · exact absurd h1 (by with_unfolding_all decide)
  rw [hb]

/-- C9: with at least 3 rows, if cross-validation or fitting of any
candidate raises, `train_models` catches it, sets `is_trained = false`
and returns the "not trained" sentinel — it never propagates an
exception to the caller (the embedding is a total function whose loop
result is pattern-matched, mirroring the `try/except`). -/
theorem train_models_catches_exceptions (st : TrainerState) (nRows : ℕ)
    (cv : String → CvOutcome) (h3 : 3 ≤ nRows)
    (hr : ∃ n ∈ candidates, cv n = CvOutcome.raises) :
    train_models st nRows cv = ({ st with is_trained := false }, none) := by
  unfold train_models
  rw [if_neg (by omega), trainLoop_error_of_raises cv candidates hr]

/-- An oracle whose `ridge` candidate raises. -/
def cvBad : String → CvOutcome :=
  fun n => if n = "ridge" then CvOutcome.raises else CvOutcome.ok 1

/-- Witness for C9 at 20 rows with a raising `ridge` candidate. -/
theorem train_models_catches_exceptions_witness :
    train_models ⟨some "x", true⟩ 20 cvBad = (⟨some "x", false⟩, none) :=
  train_models_catches_exceptions ⟨some "x", true⟩ 20 cvBad (by omega)
    ⟨"ridge", by decide, rfl⟩

/-- Four prediction dicts with predicted placements 1, 3, 2, 4 (the other
fields are irrelevant to the validator). -/
def valPreds : List PredResult :=
  [{ team := "T1", region := "", predicted_placement := 1,
     confidence_score := 0, features := ⟨0, 0, 0, 0⟩ },
   { team := "T2", region := "", predicted_placement := 3,
     confidence_score := 0, features := ⟨0, 0, 0, 0⟩ },
   { team := "T3", region := "", predicted_placement := 2,
     confidence_score := 0, features := ⟨0, 0, 0, 0⟩ },
   { team := "T4", region := "", predicted_placement := 4,
     confidence_score := 0, features := ⟨0, 0, 0, 0⟩ }]

/-- Actual placements 1, 2, 3, 4 for the same four teams. -/
def valActual : List (String × ℤ) :=
  [("T1", 1), ("T2", 2), ("T3", 3), ("T4", 4)]

/-- C7: on actual placements [1,2,3,4] and predicted placements
[1,3,2,4] for the same four teams, `validate_predictions` reports
`accuracy_within_1 = 1.0` and an exact-match rate of `0.5`. -/
theorem validate_predictions_example_metrics :
    (validate_predictions valPreds valActual).map (·.accuracy_within_1) = some 1 ∧
    (validate_predictions valPreds valActual).map (·.perfect_predictions) = some (1/2) := by
  with_unfolding_all decide

/-- C8: `strength_of_schedule` always lies in [0.5, 0.8]: it is 0.5 when
there are no recent matches, and otherwise equals the un-clamped value
`0.5 + 0.3 × (strong-opponent matches / total matches)`, whose bound
`≤ 0.8 < 1` makes the `min(·, 1.0)` clamp a no-op. -/
theorem strength_of_schedule_bounds (team : Team) :
    1/2 ≤ (calculate_team_performance team).strength_of_schedule ∧
    (calculate_team_performance team).strength_of_schedule ≤ 4/5 ∧
    (team.recent_matches = [] →
      (calculate_team_performance team).strength_of_schedule = 1/2) ∧
    (team.recent_matches ≠ [] →
      (calculate_team_performance team).strength_of_schedule =
        strength_of_schedule_raw team.recent_matches ∧
      min (strength_of_schedule_raw team.recent_matches) 1 =
        strength_of_schedule_raw team.recent_matches) := by
  cases hm : team.recent_matches with
  | nil =>
    have hsos : (calculate_team_performance team).strength_of_schedule = 1/2 := by
      simp [calculate_team_performance, hm]
    exact ⟨le_of_eq hsos.symm, by rw [hsos]; norm_num, fun _ => hsos,
      fun hne => absurd rfl hne⟩
  | cons m ms =>
    have htot : (0 : ℚ) < ((m :: ms).length : ℚ) := by
      exact_mod_cast Nat.succ_pos ms.length
    set s : ℚ :=
      (((m :: ms).filter (fun x => x.opponent ∈ strong_opponents)).length : ℚ) with hs
    have hs0 : (0 : ℚ) ≤ s / ((m :: ms).length : ℚ) := by positivity
    have hs1 : s / ((m :: ms).length : ℚ) ≤ 1 := by
      rw [hs, div_le_one htot]
      exact_mod_cast List.length_filter_le _ (m :: ms)
    have hraw : strength_of_schedule_raw (m :: ms) =
        1/2 + s / ((m :: ms).length : ℚ) * (3/10) := by
      simp only [strength_of_schedule_raw, hs]
    have hraw1 : 1/2 ≤ strength_of_schedule_raw (m :: ms) := by
      rw [hraw]; nlinarith
    have hraw2 : strength_of_schedule_raw (m :: ms) ≤ 4/5 := by
      rw [hraw]; nlinarith
    have hmin : min (strength_of_schedule_raw (m :: ms)) 1 =
        strength_of_schedule_raw (m :: ms) :=
      min_eq_left (by linarith)
    have hsos : (calculate_team_performance team).strength_of_schedule =
        min (strength_of_schedule_raw (m :: ms)) 1 := by
      simp [calculate_team_performance, hm]
    rw [hsos, hmin]
    exact ⟨hraw1, hraw2, fun h => absurd h (List.cons_ne_nil m ms),
      fun _ => ⟨rfl, rfl⟩⟩

/-- Witness for C8 on a team with one match against a recognized strong
opponent and one against an unrecognized one: value 0.65, in bounds,
clamp inert. -/
theorem strength_of_schedule_bounds_witness :
    1/2 ≤ (calculate_team_performance
        { id := "W", name := "W", region := "NA", players := [],
          formed_date := none,
          recent_matches := [{ opponent := "G2 Gozen", result := "loss", event := "" },
                             { opponent := "Other", result := "win", event := "" }]
        }).strength_of_schedule ∧
    (calculate_team_performance
        { id := "W", name := "W", region := "NA", players := [],
          formed_date := none,
          recent_matches := [{ opponent := "G2 Gozen", result := "loss", event := "" },
                             { opponent := "Other", result := "win", event := "" }]
        }).strength_of_schedule ≤ 4/5 := by
  obtain ⟨h1, h2, -, -⟩ := strength_of_schedule_bounds
    { id := "W", name := "W", region := "NA", players := [],
      formed_date := none,
      recent_matches := [{ opponent := "G2 Gozen", result := "loss", event := "" },
                         { opponent := "Other", result := "win", event := "" }] }
  exact ⟨h1, h2⟩

/-- C10: when no validated team's actual placement is within the top `n`,
`_top_n_accuracy` takes its guarded branch and returns 0.0 instead of
dividing by zero, so `top_3_accuracy` and `top_5_accuracy` are always
well-defined. -/
theorem top_n_accuracy_no_div_by_zero (yTrue yPred : List ℤ) (n : ℤ)
    (h : ∀ t ∈ yTrue, n < t) :
    top_n_accuracy yTrue yPred n = 0 := by
  have hfil : (yTrue.zip yPred).filter (fun tp => decide (tp.1 ≤ n)) = [] := by
    rw [List.filter_eq_nil_iff]
    rintro ⟨a, b⟩ htp
    have ha : a ∈ yTrue := (List.of_mem_zip htp).1
    simpa using not_le.mpr (h a ha)
  simp only [top_n_accuracy, hfil]
  norm_num

/-- Witness for C10: actual placements 4 and 5, top-3 accuracy 0. -/
theorem top_n_accuracy_no_div_by_zero_witness :
    top_n_accuracy [4, 5] [1, 2] 3 = 0 :=
  top_n_accuracy_no_div_by_zero [4, 5] [1, 2] 3 (by decide)

end GCML
